import Mathlib

/-!
Shallow embedding of the `jenkins-exporter` program (files `config.go` and
`jenkins-metrics.go`) and proofs about its polling-and-mapping routine
`updateMetrics`, its configuration loading, and its metric catalogue.

Modelling conventions:
* Go `int64` values (build numbers, durations, timestamps, ages) become `Int`;
  Go's `int64` division truncates toward zero, which is `Int.tdiv`.
* Go `uint64` (the update interval) becomes `Nat`.
* The Jenkins HTTP API is a passive environment value: `JenkinsAPI` records
  whether the initial connection succeeds and what each `GetJob` call returns;
  fallible SDK calls are `Option`-valued fields.
* A Prometheus `GaugeVec` is a finite map from label-value vectors to the last
  value set, represented as an association list; `WithLabelValues(...).Set(v)`
  replaces the entry for that label vector.  `Reset()` empties the map.
* Metric values are set from integer expressions only, so gauge values are
  modelled as `Int`.
* Log output is modelled as the list of error messages emitted during a call.
-/

namespace JenkinsExporter

/-- A pipeline stage as returned by the Jenkins pipeline API
(`stage.ID`, `stage.Name`, `stage.Status`, `stage.Duration` in milliseconds). -/
structure Stage where
  id : String
  name : String
  status : String
  duration : Int
deriving DecidableEq

/-- A pipeline run (`job.GetPipelineRun`): its list of stages. -/
structure PipelineRun where
  stages : List Stage
deriving DecidableEq

/-- A test case of a result set (`testcase.Name/.Status/.Skipped/.FailedSince/.Age`). -/
structure TestCase where
  name : String
  status : String
  skipped : Bool
  failedSince : Int
  age : Int
deriving DecidableEq

/-- A test suite of a result set (`suite.Name`, `suite.Cases`). -/
structure TestSuite where
  name : String
  cases : List TestCase
deriving DecidableEq

/-- The test result set of a build (`lastCompletedBuild.GetResultSet()`). -/
structure ResultSet where
  failCount : Int
  skipCount : Int
  passCount : Int
  suites : List TestSuite
deriving DecidableEq

/-- A build as consumed by `updateMetrics`: `GetBuildNumber()`, `GetDuration()`
(milliseconds), `GetTimestamp().Local().Unix()` (seconds), `GetResult()`,
`IsGood()`. -/
structure Build where
  number : Int
  duration : Int
  timestampUnix : Int
  result : String
  isGood : Bool
deriving DecidableEq

/-- The data the Jenkins API serves for one job.  `lastCompletedBuild` and
`lastBuild` are `none` when the corresponding SDK call returns an error.
`pipelineRun` is keyed by the build-number string passed to `GetPipelineRun`
(whose error return is ignored by the program). -/
structure JobData where
  name : String
  running : Bool
  lastCompletedBuild : Option Build
  lastBuild : Option Build
  resultSet : ResultSet
  pipelineRun : String → PipelineRun

/-- The `[jenkins]` table of the TOML configuration (`config.go`).
`UpdateInterval` is a Go `uint64`, hence `Nat`. -/
structure JenkinsSettings where
  url : String
  user : String
  password : String
  jobs : List String
  updateInterval : Nat
deriving DecidableEq

/-- The decoded configuration file (`Config` in `config.go`). -/
structure Config where
  jenkins : JenkinsSettings
deriving DecidableEq

/-- The external Jenkins server as seen through one polling cycle:
whether `jenkinsCli.Init()` succeeds and what `GetJob` returns per name
(`none` models an error return). -/
structure JenkinsAPI where
  initOk : Bool
  getJob : String → Option JobData

/-- The state of one Prometheus gauge vector: label-value vectors mapped to the
last value set. -/
abbrev Gauge : Type := List (List String × Int)

/-- `WithLabelValues(labels...).Set(v)`: replace the entry for `labels`. -/
def Gauge.set (g : Gauge) (labels : List String) (v : Int) : Gauge :=
  (labels, v) :: g.filter (fun e => e.1 ≠ labels)

/-- The current value of the series with label vector `labels`, if present. -/
def Gauge.get (g : Gauge) (labels : List String) : Option Int :=
  (g.find? (fun e => decide (e.1 = labels))).map Prod.snd

/-- The state of the nine registered gauge vectors, named as the Go globals. -/
structure MetricsState where
  jenkinsRunningBuild : Gauge
  jenkinsRunningBuildPipelineStatus : Gauge
  jenkinsRunningBuildElapsedTime : Gauge
  jenkinsCompletedBuildSuccess : Gauge
  jenkinsCompletedBuildDurationSeconds : Gauge
  jenkinsCompletedBuildTimestamp : Gauge
  jenkinsCompletedBuildTestCount : Gauge
  jenkinsCompletedBuildTestCaseFailureAge : Gauge
  jenkinsCompletedBuildPipelineDurationSeconds : Gauge
deriving DecidableEq

/-- The declared label names of `jenkins_running_build`. -/
def jenkinsRunningBuildLabelNames : List String := ["jobname", "buildid", "isgood"]

/-- The declared label names of `jenkins_running_build_pipeline_status`. -/
def jenkinsRunningBuildPipelineStatusLabelNames : List String :=
  ["jobname", "buildid", "id", "stage"]

/-- The declared label names of `jenkins_running_build_elapsed_time`. -/
def jenkinsRunningBuildElapsedTimeLabelNames : List String := ["jobname", "buildid", "isgood"]

/-- The declared label names of `jenkins_build_success`. -/
def jenkinsCompletedBuildSuccessLabelNames : List String := ["jobname", "buildid"]

/-- The declared label names of `jenkins_build_duration_seconds`. -/
def jenkinsCompletedBuildDurationSecondsLabelNames : List String := ["jobname", "buildid"]

/-- The declared label names of `jenkins_build_timestamp`. -/
def jenkinsCompletedBuildTimestampLabelNames : List String := ["jobname", "buildid"]

/-- The declared label names of `jenkins_build_test_count`. -/
def jenkinsCompletedBuildTestCountLabelNames : List String := ["jobname", "buildid", "result"]

/-- The declared label names of `jenkins_build_test_case_failure_age`. -/
def jenkinsCompletedBuildTestCaseFailureAgeLabelNames : List String :=
  ["jobname", "buildid", "suite", "case", "status", "failedsince"]

/-- The declared label names of `jenkins_build_pipeline_duration_seconds`. -/
def jenkinsCompletedBuildPipelineDurationSecondsLabelNames : List String :=
  ["jobname", "buildid", "id", "stage"]

/-- The state after the nine `Reset()` calls: every gauge vector is empty. -/
def resetMetrics : MetricsState :=
  { jenkinsRunningBuild := []
    jenkinsRunningBuildPipelineStatus := []
    jenkinsRunningBuildElapsedTime := []
    jenkinsCompletedBuildSuccess := []
    jenkinsCompletedBuildDurationSeconds := []
    jenkinsCompletedBuildTimestamp := []
    jenkinsCompletedBuildTestCount := []
    jenkinsCompletedBuildTestCaseFailureAge := []
    jenkinsCompletedBuildPipelineDurationSeconds := [] }

/-- `strconv.Itoa(int(n))` for an `int64` value. -/
def intLabel (n : Int) : String := toString n

/-- `fmt.Sprintf("%03s", s)`: pad with leading zeros to width 3
(Go's `fmt` uses `'0'` as the padding byte for strings when the zero flag is set). -/
def pad3 (s : String) : String :=
  if s.length ≥ 3 then s else String.mk (List.replicate (3 - s.length) '0') ++ s

/-- The anonymous function on `job.IsRunning()`: `1` if running, `0` otherwise. -/
def isRunningValue (running : Bool) : Int := if running then 1 else 0

/-- The anonymous function on `lastBuild.IsGood()`: the label string `"1"` or `"0"`. -/
def isGoodLabel (good : Bool) : String := if good then "1" else "0"

/-- The anonymous function on `lastCompletedBuild.GetResult()`:
`0` for `"FAILURE"`, `1` for everything else. -/
def buildSuccessValue (result : String) : Int := if result = "FAILURE" then 0 else 1

/-- The `switch stage.Status` of the running-pipeline loop:
`SUCCESS` ↦ 0, `IN_PROGRESS` ↦ 1, `UNSTABLE` ↦ 2, `FAILED` ↦ 3, default ↦ -1. -/
def stageStatusValue (status : String) : Int :=
  if status = "SUCCESS" then 0
  else if status = "IN_PROGRESS" then 1
  else if status = "UNSTABLE" then 2
  else if status = "FAILED" then 3
  else -1

/-- The body of the running-pipeline stage loop restricted to the
`jenkinsRunningBuildPipelineStatus` sets. -/
def setPipelineStatusStages (jobName buildId : String) (stages : List Stage)
    (g : Gauge) : Gauge :=
  stages.foldl
    (fun acc st =>
      acc.set [jobName, buildId, pad3 st.id, st.name] (stageStatusValue st.status)) g

/-- The elapsed-time accumulation of the running-pipeline stage loop:
`elapsedTime += stage.Duration / 1000` over all stages (truncating division). -/
def elapsedTimeOf (stages : List Stage) : Int :=
  stages.foldl (fun acc st => acc + Int.tdiv st.duration 1000) 0

/-- The inner loop of the failed/regression test walk: for every case of one
suite, publish the failure-age series when the case is not skipped and its
status is not `"PASSED"`. -/
def setSuiteCaseFailures (commonArgs : List String) (suiteName : String)
    (cs : List TestCase) (g : Gauge) : Gauge :=
  cs.foldl
    (fun acc2 tc =>
      if tc.skipped = false ∧ tc.status ≠ "PASSED" then
        acc2.set
          (commonArgs ++ [suiteName, tc.name, tc.status, intLabel tc.failedSince])
          tc.age
      else acc2)
    g

/-- The failed/regression test loop over all suites of the result set. -/
def setTestCaseFailures (commonArgs : List String) (suites : List TestSuite)
    (g : Gauge) : Gauge :=
  suites.foldl
    (fun acc suite => setSuiteCaseFailures commonArgs suite.name suite.cases acc) g

/-- The last-completed-pipeline loop: duration of each stage in seconds. -/
def setCompletedPipelineStages (jobName buildId : String) (stages : List Stage)
    (g : Gauge) : Gauge :=
  stages.foldl
    (fun acc st =>
      acc.set [jobName, buildId, pad3 st.id, st.name] (Int.tdiv st.duration 1000)) g

/-- The per-job body of the `for _, jobname := range config.Jenkins.Jobs` loop,
after `GetJob`, `GetLastCompletedBuild` and `GetLastBuild` have succeeded with
`job`, `lcb` and `lb`.  Follows the statement order of the source. -/
def processJob (job : JobData) (lcb lb : Build) (s : MetricsState) : MetricsState :=
  let commonArgs := [job.name, intLabel lcb.number]
  let s1 := { s with
    jenkinsCompletedBuildDurationSeconds :=
      s.jenkinsCompletedBuildDurationSeconds.set commonArgs (Int.tdiv lcb.duration 1000) }
  let s2 := { s1 with
    jenkinsCompletedBuildTimestamp :=
      s1.jenkinsCompletedBuildTimestamp.set commonArgs lcb.timestampUnix }
  let rs := job.resultSet
  let s3 := { s2 with
    jenkinsCompletedBuildTestCount :=
      ((s2.jenkinsCompletedBuildTestCount.set
          (commonArgs ++ ["fail"]) rs.failCount).set
          (commonArgs ++ ["skip"]) rs.skipCount).set
          (commonArgs ++ ["pass"]) rs.passCount }
  let running := isRunningValue job.running
  let good := isGoodLabel lb.isGood
  let s4 := { s3 with
    jenkinsRunningBuild :=
      s3.jenkinsRunningBuild.set [job.name, intLabel lb.number, good] running }
  let s5 :=
    if running = 1 then
      let livePipe := job.pipelineRun (intLabel lb.number)
      let s4a := { s4 with
        jenkinsRunningBuildPipelineStatus :=
          setPipelineStatusStages job.name (intLabel lb.number) livePipe.stages
            s4.jenkinsRunningBuildPipelineStatus }
      { s4a with
        jenkinsRunningBuildElapsedTime :=
          s4a.jenkinsRunningBuildElapsedTime.set [job.name, intLabel lb.number, good]
            (elapsedTimeOf livePipe.stages) }
    else s4
  let s6 := { s5 with
    jenkinsCompletedBuildSuccess :=
      s5.jenkinsCompletedBuildSuccess.set commonArgs (buildSuccessValue lcb.result) }
  let s7 := { s6 with
    jenkinsCompletedBuildTestCaseFailureAge :=
      setTestCaseFailures commonArgs rs.suites s6.jenkinsCompletedBuildTestCaseFailureAge }
  let lastCompletedPipeline := job.pipelineRun (intLabel lcb.number)
  { s7 with
    jenkinsCompletedBuildPipelineDurationSeconds :=
      setCompletedPipelineStages job.name (intLabel lcb.number)
        lastCompletedPipeline.stages s7.jenkinsCompletedBuildPipelineDurationSeconds }

/-- The error message logged when `GetJob` fails. -/
def msgJobDoesNotExist : String := "Job Does Not Exist"

/-- The error message logged when `GetLastCompletedBuild` fails for `jobname`. -/
def msgNoLastCompletedBuild (jobname : String) : String :=
  "Unable to collect metrics for job: " ++ jobname ++ " - unable to get Last Completed Build"

/-- The error message logged when `GetLastBuild` fails for `jobname`. -/
def msgNoLastBuild (jobname : String) : String :=
  "Unable to collect metrics for job: " ++ jobname ++ " - unable to get Last Build"

/-- The error message logged when `jenkinsCli.Init()` fails. -/
def msgConnectFailed : String := "Unable to connect to Jenkins"

/-- The job loop of `updateMetrics`: processes configured job names in order;
on the first API error it logs the message and returns (a `return`, not a
`continue`, so the remaining jobs are abandoned).  Returns the final metrics
state and the error log of the pass. -/
def processJobs (api : JenkinsAPI) (jobs : List String) (s : MetricsState) :
    MetricsState × List String :=
  match jobs with
  | [] => (s, [])
  | jobname :: rest =>
    match api.getJob jobname with
    | none => (s, [msgJobDoesNotExist])
    | some job =>
      match job.lastCompletedBuild with
      | none => (s, [msgNoLastCompletedBuild jobname])
      | some lcb =>
        match job.lastBuild with
        | none => (s, [msgNoLastBuild jobname])
        | some lb => processJobs api rest (processJob job lcb lb s)

/-- `updateMetrics`: connect; on `Init` error log and return with the metrics
untouched; otherwise reset all nine gauge vectors and run the job loop. -/
def updateMetrics (api : JenkinsAPI) (cfg : Config) (s : MetricsState) :
    MetricsState × List String :=
  if api.initOk then processJobs api cfg.jenkins.jobs resetMetrics
  else (s, [msgConnectFailed])

/-- The interval defaulting after configuration load:
`if config.Jenkins.UpdateInterval <= 0 { config.Jenkins.UpdateInterval = 1800 }`. -/
def applyIntervalDefault (c : Config) : Config :=
  if c.jenkins.updateInterval ≤ 0 then
    { c with jenkins := { c.jenkins with updateInterval := 1800 } }
  else c

/-- The file system as seen by the config-loading `init`:
`statOk p` models `os.Stat(p)` succeeding, `decodeToml p` models
`loadConfig(p)` (`none` is a parse error). -/
structure FileSystem where
  statOk : String → Bool
  decodeToml : String → Option Config

/-- The config-loading `init` function.  The `-config` flag has the default
value `"./config.toml"`; `none` models the flag being absent from the command
line.  Returns `none` when the process calls `log.Fatal` (file missing or
unparsable), otherwise the loaded configuration with the interval default
applied. -/
def initConfig (configFlagValue : Option String) (fs : FileSystem) : Option Config :=
  let path := configFlagValue.getD "./config.toml"
  if fs.statOk path then
    match fs.decodeToml path with
    | some c => some (applyIntervalDefault c)
    | none => none
  else none

/-! ## Specification-side predicates (stated over the embedded program) -/

/-- Every series of `g` has as many label values as the gauge vector declares
label names. -/
abbrev gaugeArity (labelNames : List String) (g : Gauge) : Prop :=
  ∀ e ∈ g, e.1.length = labelNames.length

/-- Every series of every family carries exactly as many label values as that
family's declaration lists label names. -/
abbrev wellLabeled (s : MetricsState) : Prop :=
  gaugeArity jenkinsRunningBuildLabelNames s.jenkinsRunningBuild
  ∧ gaugeArity jenkinsRunningBuildPipelineStatusLabelNames s.jenkinsRunningBuildPipelineStatus
  ∧ gaugeArity jenkinsRunningBuildElapsedTimeLabelNames s.jenkinsRunningBuildElapsedTime
  ∧ gaugeArity jenkinsCompletedBuildSuccessLabelNames s.jenkinsCompletedBuildSuccess
  ∧ gaugeArity jenkinsCompletedBuildDurationSecondsLabelNames
      s.jenkinsCompletedBuildDurationSeconds
  ∧ gaugeArity jenkinsCompletedBuildTimestampLabelNames s.jenkinsCompletedBuildTimestamp
  ∧ gaugeArity jenkinsCompletedBuildTestCountLabelNames s.jenkinsCompletedBuildTestCount
  ∧ gaugeArity jenkinsCompletedBuildTestCaseFailureAgeLabelNames
      s.jenkinsCompletedBuildTestCaseFailureAge
  ∧ gaugeArity jenkinsCompletedBuildPipelineDurationSecondsLabelNames
      s.jenkinsCompletedBuildPipelineDurationSeconds

/-- The first label value (the `jobname` label) of `l` is one of `names`
(vacuously true for an empty label vector). -/
def headIn (names l : List String) : Bool :=
  match l with
  | [] => true
  | n :: _ => names.contains n

/-- Every series of `g` carries a `jobname` label that is one of `names`. -/
abbrev gaugeJobsIn (names : List String) (g : Gauge) : Prop :=
  ∀ e ∈ g, headIn names e.1 = true

/-- Every series of every family carries a `jobname` label in `names`. -/
abbrev stateJobsIn (names : List String) (s : MetricsState) : Prop :=
  gaugeJobsIn names s.jenkinsRunningBuild
  ∧ gaugeJobsIn names s.jenkinsRunningBuildPipelineStatus
  ∧ gaugeJobsIn names s.jenkinsRunningBuildElapsedTime
  ∧ gaugeJobsIn names s.jenkinsCompletedBuildSuccess
  ∧ gaugeJobsIn names s.jenkinsCompletedBuildDurationSeconds
  ∧ gaugeJobsIn names s.jenkinsCompletedBuildTimestamp
  ∧ gaugeJobsIn names s.jenkinsCompletedBuildTestCount
  ∧ gaugeJobsIn names s.jenkinsCompletedBuildTestCaseFailureAge
  ∧ gaugeJobsIn names s.jenkinsCompletedBuildPipelineDurationSeconds

/-- The outcome of the three fallible API calls for one job name: `some msg`
when one of `GetJob`, `GetLastCompletedBuild`, `GetLastBuild` fails (with the
message the program logs), `none` when all three succeed. -/
def jobFetchErr (api : JenkinsAPI) (j : String) : Option String :=
  match api.getJob j with
  | none => some msgJobDoesNotExist
  | some job =>
    match job.lastCompletedBuild with
    | none => some (msgNoLastCompletedBuild j)
    | some _ =>
      match job.lastBuild with
      | none => some (msgNoLastBuild j)
      | some _ => none

/-- The polling pass completes: every configured job resolves without an API
error. -/
abbrev cycleCompletes (api : JenkinsAPI) (jobs : List String) : Prop :=
  ∀ j ∈ jobs, jobFetchErr api j = none

/-- The label vector of a `jenkins_build_test_case_failure_age` series:
the common labels (job name, last-completed-build id) followed by suite name,
case name, case status, and failed-since build number. -/
def failureAgeLabels (jobName : String) (lcbNumber : Int) (suite : TestSuite)
    (tc : TestCase) : List String :=
  [jobName, intLabel lcbNumber] ++ [suite.name, tc.name, tc.status, intLabel tc.failedSince]

/-! ## Concrete fixtures used by witnesses and counterexamples -/

/-- A configuration file content used to exercise `initConfig`. -/
def defaultTomlConfig : Config :=
  { jenkins :=
    { url := "http://jenkins.local", user := "", password := ""
      jobs := ["job1"], updateInterval := 300 } }

/-- A file system on which `./config.toml` exists and parses to
`defaultTomlConfig`. -/
def fsWithDefaultToml : FileSystem :=
  { statOk := fun p => p == "./config.toml"
    decodeToml := fun p => if p == "./config.toml" then some defaultTomlConfig else none }

/-- A Jenkins API whose initial connection fails. -/
def apiDown : JenkinsAPI := { initOk := false, getJob := fun _ => none }

/-- A concrete pipeline stage. -/
def sampleStage : Stage := { id := "6", name := "Build", status := "SUCCESS", duration := 1234 }

/-- A concrete pipeline run. -/
def samplePipeline : PipelineRun := { stages := [sampleStage] }

/-- A concrete non-passing, non-skipped test case. -/
def sampleCase : TestCase :=
  { name := "t1", status := "REGRESSION", skipped := false, failedSince := 40, age := 2 }

/-- A concrete test suite. -/
def sampleSuite : TestSuite := { name := "suite1", cases := [sampleCase] }

/-- A concrete result set. -/
def sampleResultSet : ResultSet :=
  { failCount := 1, skipCount := 0, passCount := 3, suites := [sampleSuite] }

/-- A concrete last completed build. -/
def sampleBuild : Build :=
  { number := 41, duration := 5000, timestampUnix := 1700000000
    result := "SUCCESS", isGood := true }

/-- A concrete last (running) build. -/
def sampleRunningBuild : Build :=
  { number := 42, duration := 0, timestampUnix := 1700000100, result := "", isGood := true }

/-- A concrete job named `job1`, currently running. -/
def sampleJob : JobData :=
  { name := "job1", running := true, lastCompletedBuild := some sampleBuild
    lastBuild := some sampleRunningBuild, resultSet := sampleResultSet
    pipelineRun := fun _ => samplePipeline }

/-- A Jenkins API serving exactly `sampleJob` under the name `job1`. -/
def sampleAPI : JenkinsAPI :=
  { initOk := true, getJob := fun j => if j = "job1" then some sampleJob else none }

/-- A configuration listing the single job `job1`. -/
def sampleConfig : Config :=
  { jenkins := { url := "http://jenkins.local", user := "admin", password := "pw"
                 jobs := ["job1"], updateInterval := 60 } }

/-- A configuration listing `job1` followed by a job the API does not know. -/
def sampleConfigMissingJob : Config :=
  { jenkins := { url := "http://jenkins.local", user := "admin", password := "pw"
                 jobs := ["job1", "missing"], updateInterval := 60 } }

/-! ## Basic lemmas about gauge vectors -/

theorem Gauge.get_set_self (g : Gauge) (l : List String) (v : Int) :
    (g.set l v).get l = some v := by
  simp [Gauge.set, Gauge.get, List.find?]

theorem find?_filter_of_imp {α : Type} (l : List α) (p q : α → Bool)
    (h : ∀ a, p a = true → q a = true) : (l.filter q).find? p = l.find? p := by
  induction l with
  | nil => rfl
  | cons a t ih =>
    by_cases hp : p a = true
    · have hq := h a hp
      simp [List.filter_cons, hq, List.find?, hp]
    · cases hqa : q a <;>
        simp_all [List.filter_cons, List.find?, hqa]

theorem Gauge.get_set_ne (g : Gauge) (l l' : List String) (v : Int) (h : l' ≠ l) :
    (g.set l v).get l' = g.get l' := by
  unfold Gauge.set Gauge.get
  rw [List.find?]
  have : (decide ((l, v).1 = l')) = false := by simp [Ne.symm h]
  rw [this]
  rw [find?_filter_of_imp]
  intro a ha
  simp only [decide_eq_true_eq] at ha
  simp [ha, h]

theorem Gauge.mem_set {g : Gauge} {l : List String} {v : Int}
    {e : List String × Int} (h : e ∈ g.set l v) : e = (l, v) ∨ e ∈ g := by
  unfold Gauge.set at h
  rcases List.mem_cons.mp h with h | h
  · exact Or.inl h
  · exact Or.inr (List.mem_of_mem_filter h)

theorem Gauge.get_isSome_iff (g : Gauge) (l : List String) :
    (g.get l).isSome = true ↔ ∃ v, (l, v) ∈ g := by
  unfold Gauge.get
  rw [show ∀ o : Option (List String × Int), (o.map Prod.snd).isSome = o.isSome from
    fun o => by cases o <;> rfl]
  rw [List.find?_isSome]
  constructor
  · rintro ⟨⟨l0, v0⟩, hmem, hp⟩
    simp only [decide_eq_true_eq] at hp
    exact ⟨v0, by simpa [hp] using hmem⟩
  · rintro ⟨v0, hmem⟩
    exact ⟨(l, v0), hmem, by simp⟩

theorem Gauge.get_set_isSome (g : Gauge) (l l' : List String) (v : Int)
    (h : (g.get l').isSome = true) : ((g.set l v).get l').isSome = true := by
  by_cases hl : l' = l
  · subst hl; simp [Gauge.get_set_self]
  · rw [Gauge.get_set_ne g l l' v hl]; exact h

theorem elapsedTimeOf_foldl {c : Int} (stages : List Stage) :
    stages.foldl (fun acc st => acc + Int.tdiv st.duration 1000) c
      = c + (stages.map fun st => Int.tdiv st.duration 1000).sum := by
  induction stages generalizing c with
  | nil => simp
  | cons st t ih => simp [List.foldl_cons, ih, add_assoc]

theorem elapsedTimeOf_eq_sum (stages : List Stage) :
    elapsedTimeOf stages = (stages.map fun st => Int.tdiv st.duration 1000).sum := by
  simpa using elapsedTimeOf_foldl (c := 0) stages

/-- Field-by-field characterization of `processJob`. -/
theorem processJob_fields (job : JobData) (lcb lb : Build) (s : MetricsState) :
    processJob job lcb lb s =
      { jenkinsRunningBuild :=
          s.jenkinsRunningBuild.set
            [job.name, intLabel lb.number, isGoodLabel lb.isGood]
            (isRunningValue job.running)
        jenkinsRunningBuildPipelineStatus :=
          if isRunningValue job.running = 1 then
            setPipelineStatusStages job.name (intLabel lb.number)
              (job.pipelineRun (intLabel lb.number)).stages
              s.jenkinsRunningBuildPipelineStatus
          else s.jenkinsRunningBuildPipelineStatus
        jenkinsRunningBuildElapsedTime :=
          if isRunningValue job.running = 1 then
            s.jenkinsRunningBuildElapsedTime.set
              [job.name, intLabel lb.number, isGoodLabel lb.isGood]
              (elapsedTimeOf (job.pipelineRun (intLabel lb.number)).stages)
          else s.jenkinsRunningBuildElapsedTime
        jenkinsCompletedBuildSuccess :=
          s.jenkinsCompletedBuildSuccess.set [job.name, intLabel lcb.number]
            (buildSuccessValue lcb.result)
        jenkinsCompletedBuildDurationSeconds :=
          s.jenkinsCompletedBuildDurationSeconds.set [job.name, intLabel lcb.number]
            (Int.tdiv lcb.duration 1000)
        jenkinsCompletedBuildTimestamp :=
          s.jenkinsCompletedBuildTimestamp.set [job.name, intLabel lcb.number]
            lcb.timestampUnix
        jenkinsCompletedBuildTestCount :=
          ((s.jenkinsCompletedBuildTestCount.set
              ([job.name, intLabel lcb.number] ++ ["fail"]) job.resultSet.failCount).set
              ([job.name, intLabel lcb.number] ++ ["skip"]) job.resultSet.skipCount).set
              ([job.name, intLabel lcb.number] ++ ["pass"]) job.resultSet.passCount
        jenkinsCompletedBuildTestCaseFailureAge :=
          setTestCaseFailures [job.name, intLabel lcb.number] job.resultSet.suites
            s.jenkinsCompletedBuildTestCaseFailureAge
        jenkinsCompletedBuildPipelineDurationSeconds :=
          setCompletedPipelineStages job.name (intLabel lcb.number)
            (job.pipelineRun (intLabel lcb.number)).stages
            s.jenkinsCompletedBuildPipelineDurationSeconds } := by
  by_cases hrun : isRunningValue job.running = 1 <;> simp [processJob, hrun]

theorem gaugeArity_set {L : List String} {g : Gauge} {l : List String} {v : Int}
    (hg : gaugeArity L g) (hl : l.length = L.length) : gaugeArity L (g.set l v) := by
  intro e he
  rcases Gauge.mem_set he with rfl | he
  · exact hl
  · exact hg e he

theorem gaugeArity_setFold {α : Type} {L : List String} (lab : α → List String)
    (val : α → Int) (l : List α) {g : Gauge} (hg : gaugeArity L g)
    (hl : ∀ a, (lab a).length = L.length) :
    gaugeArity L (l.foldl (fun acc a => acc.set (lab a) (val a)) g) := by
  induction l generalizing g with
  | nil => exact hg
  | cons a t ih => exact ih (gaugeArity_set hg (hl a))

theorem gaugeArity_setPipelineStatusStages {jn bn : String} {stages : List Stage}
    {g : Gauge} (hg : gaugeArity jenkinsRunningBuildPipelineStatusLabelNames g) :
    gaugeArity jenkinsRunningBuildPipelineStatusLabelNames
      (setPipelineStatusStages jn bn stages g) := by
  unfold setPipelineStatusStages
  exact gaugeArity_setFold (fun st => [jn, bn, pad3 st.id, st.name])
    (fun st => stageStatusValue st.status) stages hg (fun st => rfl)

theorem gaugeArity_setCompletedPipelineStages {jn bn : String} {stages : List Stage}
    {g : Gauge}
    (hg : gaugeArity jenkinsCompletedBuildPipelineDurationSecondsLabelNames g) :
    gaugeArity jenkinsCompletedBuildPipelineDurationSecondsLabelNames
      (setCompletedPipelineStages jn bn stages g) := by
  unfold setCompletedPipelineStages
  exact gaugeArity_setFold (fun st => [jn, bn, pad3 st.id, st.name])
    (fun st => Int.tdiv st.duration 1000) stages hg (fun st => rfl)

theorem gaugeArity_caseFold {ca : List String} {sn : String} {cs : List TestCase}
    {g : Gauge} (hca : ca.length = 2)
    (hg : gaugeArity jenkinsCompletedBuildTestCaseFailureAgeLabelNames g) :
    gaugeArity jenkinsCompletedBuildTestCaseFailureAgeLabelNames
      (setSuiteCaseFailures ca sn cs g) := by
  unfold setSuiteCaseFailures
  induction cs generalizing g with
  | nil => exact hg
  | cons tc t ih =>
    simp only [List.foldl_cons]
    split
    · exact ih (gaugeArity_set hg
        (by simp [hca, jenkinsCompletedBuildTestCaseFailureAgeLabelNames]))
    · exact ih hg

theorem gaugeArity_setTestCaseFailures {ca : List String} {suites : List TestSuite}
    {g : Gauge} (hca : ca.length = 2)
    (hg : gaugeArity jenkinsCompletedBuildTestCaseFailureAgeLabelNames g) :
    gaugeArity jenkinsCompletedBuildTestCaseFailureAgeLabelNames
      (setTestCaseFailures ca suites g) := by
  unfold setTestCaseFailures
  induction suites generalizing g with
  | nil => exact hg
  | cons suite t ih =>
    simp only [List.foldl_cons]
    exact ih (gaugeArity_caseFold hca hg)

theorem wellLabeled_processJob {job : JobData} {lcb lb : Build} {s : MetricsState}
    (hs : wellLabeled s) : wellLabeled (processJob job lcb lb s) := by
  obtain ⟨h1, h2, h3, h4, h5, h6, h7, h8, h9⟩ := hs
  rw [processJob_fields]
  refine ⟨?_, ?_, ?_, ?_, ?_, ?_, ?_, ?_, ?_⟩
  · exact gaugeArity_set h1 rfl
  · split
    · exact gaugeArity_setPipelineStatusStages h2
    · exact h2
  · split
    · exact gaugeArity_set h3 rfl
    · exact h3
  · exact gaugeArity_set h4 rfl
  · exact gaugeArity_set h5 rfl
  · exact gaugeArity_set h6 rfl
  · exact gaugeArity_set (gaugeArity_set (gaugeArity_set h7 rfl) rfl) rfl
  · exact gaugeArity_setTestCaseFailures rfl h8
  · exact gaugeArity_setCompletedPipelineStages h9

theorem wellLabeled_processJobs {api : JenkinsAPI} {jobs : List String}
    {s : MetricsState} (hs : wellLabeled s) :
    wellLabeled (processJobs api jobs s).1 := by
  induction jobs generalizing s with
  | nil => exact hs
  | cons j t ih =>
    unfold processJobs
    cases api.getJob j with
    | none => exact hs
    | some job =>
      dsimp only
      cases job.lastCompletedBuild with
      | none => exact hs
      | some lcb =>
        dsimp only
        cases job.lastBuild with
        | none => exact hs
        | some lb => exact ih (wellLabeled_processJob hs)

theorem wellLabeled_resetMetrics : wellLabeled resetMetrics := by
  refine ⟨?_, ?_, ?_, ?_, ?_, ?_, ?_, ?_, ?_⟩ <;> intro e he <;> simp [resetMetrics] at he

/-! ## Claim theorems -/

/-- C2: for every job processed in a cycle, the `jenkins_build_success` series
labelled with the job name and the last completed build's id is set to `0`
when that build's result string is `"FAILURE"` and to `1` for any other
result string. -/
theorem buildSuccess_encoding (job : JobData) (lcb lb : Build) (s : MetricsState) :
    ((processJob job lcb lb s).jenkinsCompletedBuildSuccess).get
        [job.name, intLabel lcb.number]
      = some (if lcb.result = "FAILURE" then 0 else 1) := by
  unfold processJob
  by_cases h : isRunningValue job.running = 1 <;>
    simp [h, buildSuccessValue, Gauge.get_set_self]

/-- C4: after configuration loading, an update interval of zero (the unsigned
field's only non-positive value, which is also its value when unset) becomes
1800 seconds, and any positive configured value is kept unchanged. -/
theorem updateInterval_default (c : Config) :
    (applyIntervalDefault c).jenkins.updateInterval
      = if c.jenkins.updateInterval = 0 then 1800
        else c.jenkins.updateInterval := by
  unfold applyIntervalDefault
  rcases Nat.eq_zero_or_pos c.jenkins.updateInterval with h | h
  · simp [h]
  · simp [Nat.pos_iff_ne_zero.mp h, Nat.not_le.mpr h]

/-- C7 counterexample: the `-config` flag is not required.  With the flag
absent, the flag's declared default `"./config.toml"` is used, and when that
file exists and parses, `init` completes without a fatal exit. -/
theorem configFlag_not_required :
    initConfig none fsWithDefaultToml = some (applyIntervalDefault defaultTomlConfig) := by
  decide

/-- C7 amended: the `-config` flag is optional with default `./config.toml`;
the process exits fatally exactly when the selected configuration file (the
flag's value, or the default when the flag is absent) is missing or fails to
parse. -/
theorem initConfig_fatal_iff (flg : Option String) (fs : FileSystem) :
    initConfig flg fs = none ↔
      (fs.statOk (flg.getD "./config.toml") = false
        ∨ fs.decodeToml (flg.getD "./config.toml") = none) := by
  unfold initConfig
  cases h : fs.statOk (flg.getD "./config.toml")
  · simp [h]
  · cases h2 : fs.decodeToml (flg.getD "./config.toml") <;> simp [h, h2]

/-- C8: when the initial connection fails (`Init` returns an error),
`updateMetrics` logs the connection error and returns before the reset, so the
metrics state — the previous cycle's snapshot — is unchanged. -/
theorem initError_keeps_metrics (api : JenkinsAPI) (cfg : Config) (s : MetricsState)
    (h : api.initOk = false) :
    updateMetrics api cfg s = (s, [msgConnectFailed]) := by
  simp [updateMetrics, h]

/-- C8 witness: `initError_keeps_metrics` applied to a concrete failing API. -/
theorem initError_keeps_metrics_witness :
    updateMetrics apiDown defaultTomlConfig resetMetrics
      = (resetMetrics, [msgConnectFailed]) :=
  initError_keeps_metrics apiDown defaultTomlConfig resetMetrics rfl

/-- C6: for any cycle, every series published by `updateMetrics` lives in one
of the nine declared gauge families (the nine fields of `MetricsState`, named
as the registered gauge vectors) and carries exactly as many label values as
its family's declared label-name list. -/
theorem metrics_catalogue (api : JenkinsAPI) (cfg : Config) (s : MetricsState)
    (hs : wellLabeled s) : wellLabeled (updateMetrics api cfg s).1 := by
  unfold updateMetrics
  split
  · exact wellLabeled_processJobs wellLabeled_resetMetrics
  · exact hs

/-- C6 witness: `metrics_catalogue` for the sample API response and the
single configured job `job1`, starting from the reset state. -/
theorem metrics_catalogue_witness :
    wellLabeled (updateMetrics sampleAPI sampleConfig resetMetrics).1 :=
  metrics_catalogue sampleAPI sampleConfig resetMetrics wellLabeled_resetMetrics

theorem gaugeJobsIn_set {N : List String} {g : Gauge} {l : List String} {v : Int}
    (hg : gaugeJobsIn N g) (hl : headIn N l = true) : gaugeJobsIn N (g.set l v) := by
  intro e he
  rcases Gauge.mem_set he with rfl | he
  · exact hl
  · exact hg e he

theorem gaugeJobsIn_setFold {α : Type} {N : List String} (lab : α → List String)
    (val : α → Int) (l : List α) {g : Gauge} (hg : gaugeJobsIn N g)
    (hl : ∀ a, headIn N (lab a) = true) :
    gaugeJobsIn N (l.foldl (fun acc a => acc.set (lab a) (val a)) g) := by
  induction l generalizing g with
  | nil => exact hg
  | cons a t ih => exact ih (gaugeJobsIn_set hg (hl a))

theorem gaugeJobsIn_caseFold {N : List String} {jn : String} {ca : List String}
    {sn : String} {cs : List TestCase} {g : Gauge}
    (hjn : N.contains jn = true) (hg : gaugeJobsIn N g) :
    gaugeJobsIn N (setSuiteCaseFailures (jn :: ca) sn cs g) := by
  unfold setSuiteCaseFailures
  induction cs generalizing g with
  | nil => exact hg
  | cons tc t ih =>
    simp only [List.foldl_cons]
    split
    · exact ih (gaugeJobsIn_set hg hjn)
    · exact ih hg

theorem gaugeJobsIn_setTestCaseFailures {N : List String} {jn : String}
    {ca : List String} {suites : List TestSuite} {g : Gauge}
    (hjn : N.contains jn = true) (hg : gaugeJobsIn N g) :
    gaugeJobsIn N (setTestCaseFailures (jn :: ca) suites g) := by
  unfold setTestCaseFailures
  induction suites generalizing g with
  | nil => exact hg
  | cons suite t ih =>
    simp only [List.foldl_cons]
    exact ih (gaugeJobsIn_caseFold hjn hg)

theorem stateJobsIn_processJob {N : List String} {job : JobData} {lcb lb : Build}
    {s : MetricsState} (hjn : N.contains job.name = true) (hs : stateJobsIn N s) :
    stateJobsIn N (processJob job lcb lb s) := by
  obtain ⟨h1, h2, h3, h4, h5, h6, h7, h8, h9⟩ := hs
  rw [processJob_fields]
  refine ⟨?_, ?_, ?_, ?_, ?_, ?_, ?_, ?_, ?_⟩
  · exact gaugeJobsIn_set h1 hjn
  · split
    · exact gaugeJobsIn_setFold
        (fun (st : Stage) => [job.name, intLabel lb.number, pad3 st.id, st.name])
        (fun st => stageStatusValue st.status) _ h2 (fun st => hjn)
    · exact h2
  · split
    · exact gaugeJobsIn_set h3 hjn
    · exact h3
  · exact gaugeJobsIn_set h4 hjn
  · exact gaugeJobsIn_set h5 hjn
  · exact gaugeJobsIn_set h6 hjn
  · exact gaugeJobsIn_set (gaugeJobsIn_set (gaugeJobsIn_set h7 hjn) hjn) hjn
  · exact gaugeJobsIn_setTestCaseFailures hjn h8
  · exact gaugeJobsIn_setFold
      (fun (st : Stage) => [job.name, intLabel lcb.number, pad3 st.id, st.name])
      (fun st => Int.tdiv st.duration 1000) _ h9 (fun st => hjn)

theorem stateJobsIn_resetMetrics {N : List String} : stateJobsIn N resetMetrics := by
  refine ⟨?_, ?_, ?_, ?_, ?_, ?_, ?_, ?_, ?_⟩ <;> intro e he <;> simp [resetMetrics] at he

theorem stateJobsIn_processJobs {api : JenkinsAPI} {N : List String}
    {jobs : List String} {s : MetricsState}
    (hjobs : ∀ j ∈ jobs, ∀ job, api.getJob j = some job → N.contains job.name = true)
    (hs : stateJobsIn N s) :
    stateJobsIn N (processJobs api jobs s).1 := by
  induction jobs generalizing s with
  | nil => exact hs
  | cons j t ih =>
    unfold processJobs
    cases hj : api.getJob j with
    | none => exact hs
    | some job =>
      dsimp only
      cases job.lastCompletedBuild with
      | none => exact hs
      | some lcb =>
        dsimp only
        cases job.lastBuild with
        | none => exact hs
        | some lb =>
          exact ih (fun j' hj' => hjobs j' (List.mem_cons_of_mem j hj'))
            (stateJobsIn_processJob (hjobs j (List.mem_cons_self j t) job hj) hs)

/-- C1: in a cycle whose pass completes, the nine gauge vectors are reset
before any series is populated, so afterwards every published series carries a
`jobname` label naming one of the jobs configured for that cycle; series of
jobs no longer configured are absent.  (The hypothesis `hname` records that
the server answers `GetJob(j)` with a job named `j`.) -/
theorem reset_before_populate (api : JenkinsAPI) (cfg : Config) (s : MetricsState)
    (hinit : api.initOk = true)
    (hname : ∀ j job, api.getJob j = some job → job.name = j)
    (hdone : cycleCompletes api cfg.jenkins.jobs) :
    stateJobsIn cfg.jenkins.jobs (updateMetrics api cfg s).1 := by
  unfold updateMetrics
  rw [hinit]
  simp only [if_true]
  refine stateJobsIn_processJobs ?_ stateJobsIn_resetMetrics
  intro j hj job hjob
  rw [hname j job hjob]
  exact List.elem_eq_true_of_mem hj

/-- C1 witness: `reset_before_populate` for the sample API and the single
configured job `job1`. -/
theorem reset_before_populate_witness :
    stateJobsIn sampleConfig.jenkins.jobs
      (updateMetrics sampleAPI sampleConfig resetMetrics).1 :=
  reset_before_populate sampleAPI sampleConfig resetMetrics rfl
    (fun j job h => by
      by_cases hj : j = "job1"
      · subst hj
        rw [show sampleAPI.getJob "job1" = some sampleJob from rfl] at h
        rw [← Option.some_inj.mp h]
        rfl
      · simp [sampleAPI, hj] at h)
    (by decide)

/-- C10: from a reset state, the `jenkins_running_build_elapsed_time` family
for a processed job holds exactly one series when the job is running — valued
by the sum over the running pipeline's stages of each stage's duration
divided by 1000 with truncating integer division — and no series otherwise;
and `jenkins_running_build` is set to `1` when running, `0` otherwise. -/
theorem runningBuild_and_elapsedTime (job : JobData) (lcb lb : Build) :
    (processJob job lcb lb resetMetrics).jenkinsRunningBuildElapsedTime
      = (if job.running then
          [([job.name, intLabel lb.number, isGoodLabel lb.isGood],
            ((job.pipelineRun (intLabel lb.number)).stages.map
              fun st => Int.tdiv st.duration 1000).sum)]
         else [])
    ∧ (processJob job lcb lb resetMetrics).jenkinsRunningBuild.get
        [job.name, intLabel lb.number, isGoodLabel lb.isGood]
      = some (if job.running then 1 else 0) := by
  cases hr : job.running <;>
    simp [processJob, isRunningValue, hr, resetMetrics, Gauge.set, Gauge.get,
      List.find?, Gauge.get_set_self, elapsedTimeOf_eq_sum]

theorem setPipelineStatusStages_cons (jn bn : String) (st : Stage) (t : List Stage)
    (g : Gauge) :
    setPipelineStatusStages jn bn (st :: t) g
      = setPipelineStatusStages jn bn t
          (g.set [jn, bn, pad3 st.id, st.name] (stageStatusValue st.status)) := rfl

theorem mem_setPipelineStatusStages {jn bn : String} (stages : List Stage) (g : Gauge)
    {e : List String × Int} (h : e ∈ setPipelineStatusStages jn bn stages g) :
    e ∈ g ∨ ∃ st ∈ stages,
      e = ([jn, bn, pad3 st.id, st.name], stageStatusValue st.status) := by
  induction stages generalizing g with
  | nil => exact Or.inl h
  | cons st t ih =>
    rw [setPipelineStatusStages_cons] at h
    rcases ih _ h with h' | ⟨st', hst', he⟩
    · rcases Gauge.mem_set h' with he | he
      · exact Or.inr ⟨st, List.mem_cons_self st t, he⟩
      · exact Or.inl he
    · exact Or.inr ⟨st', List.mem_cons_of_mem st hst', he⟩

theorem setSuiteCaseFailures_cons (ca : List String) (sn : String) (tc : TestCase)
    (t : List TestCase) (g : Gauge) :
    setSuiteCaseFailures ca sn (tc :: t) g
      = setSuiteCaseFailures ca sn t
          (if tc.skipped = false ∧ tc.status ≠ "PASSED" then
            g.set (ca ++ [sn, tc.name, tc.status, intLabel tc.failedSince]) tc.age
          else g) := rfl

theorem setTestCaseFailures_cons (ca : List String) (suite : TestSuite)
    (t : List TestSuite) (g : Gauge) :
    setTestCaseFailures ca (suite :: t) g
      = setTestCaseFailures ca t (setSuiteCaseFailures ca suite.name suite.cases g) := rfl

theorem mem_setSuiteCaseFailures {ca : List String} {sn : String}
    (cs : List TestCase) (g : Gauge) {e : List String × Int}
    (h : e ∈ setSuiteCaseFailures ca sn cs g) :
    e ∈ g ∨ ∃ tc ∈ cs, tc.skipped = false ∧ tc.status ≠ "PASSED" ∧
      e = (ca ++ [sn, tc.name, tc.status, intLabel tc.failedSince], tc.age) := by
  induction cs generalizing g with
  | nil => exact Or.inl h
  | cons tc t ih =>
    rw [setSuiteCaseFailures_cons] at h
    rcases ih _ h with h' | ⟨tc', htc', hsk, hst, he⟩
    · by_cases hc : tc.skipped = false ∧ tc.status ≠ "PASSED"
      · rw [if_pos hc] at h'
        rcases Gauge.mem_set h' with he | he
        · exact Or.inr ⟨tc, List.mem_cons_self tc t, hc.1, hc.2, he⟩
        · exact Or.inl he
      · rw [if_neg hc] at h'
        exact Or.inl h'
    · exact Or.inr ⟨tc', List.mem_cons_of_mem tc htc', hsk, hst, he⟩

theorem mem_setTestCaseFailures {ca : List String} (suites : List TestSuite)
    (g : Gauge) {e : List String × Int} (h : e ∈ setTestCaseFailures ca suites g) :
    e ∈ g ∨ ∃ suite ∈ suites, ∃ tc ∈ suite.cases,
      tc.skipped = false ∧ tc.status ≠ "PASSED" ∧
      e = (ca ++ [suite.name, tc.name, tc.status, intLabel tc.failedSince], tc.age) := by
  induction suites generalizing g with
  | nil => exact Or.inl h
  | cons suite t ih =>
    rw [setTestCaseFailures_cons] at h
    rcases ih _ h with h' | ⟨suite', hs', tc', htc', hsk, hst, he⟩
    · rcases mem_setSuiteCaseFailures _ _ h' with h'' | ⟨tc, htc, hsk, hst, he⟩
      · exact Or.inl h''
      · exact Or.inr ⟨suite, List.mem_cons_self suite t, tc, htc, hsk, hst, he⟩
    · exact Or.inr ⟨suite', List.mem_cons_of_mem suite hs', tc', htc', hsk, hst, he⟩

theorem get_isSome_setSuiteCaseFailures_mono {ca : List String} {sn : String}
    (cs : List TestCase) (g : Gauge) (l : List String)
    (h : (g.get l).isSome = true) :
    ((setSuiteCaseFailures ca sn cs g).get l).isSome = true := by
  induction cs generalizing g with
  | nil => exact h
  | cons tc t ih =>
    rw [setSuiteCaseFailures_cons]
    split
    · exact ih _ (Gauge.get_set_isSome g _ l tc.age h)
    · exact ih _ h

theorem get_isSome_setTestCaseFailures_mono {ca : List String}
    (suites : List TestSuite) (g : Gauge) (l : List String)
    (h : (g.get l).isSome = true) :
    ((setTestCaseFailures ca suites g).get l).isSome = true := by
  induction suites generalizing g with
  | nil => exact h
  | cons suite t ih =>
    rw [setTestCaseFailures_cons]
    exact ih _ (get_isSome_setSuiteCaseFailures_mono _ _ _ h)

theorem get_isSome_setSuiteCaseFailures_of_mem {ca : List String} {sn : String}
    {cs : List TestCase} {tc : TestCase} (htc : tc ∈ cs)
    (hsk : tc.skipped = false) (hst : tc.status ≠ "PASSED") (g : Gauge) :
    ((setSuiteCaseFailures ca sn cs g).get
        (ca ++ [sn, tc.name, tc.status, intLabel tc.failedSince])).isSome = true := by
  induction cs generalizing g with
  | nil => cases htc
  | cons c t ih =>
    rw [setSuiteCaseFailures_cons]
    rcases List.mem_cons.mp htc with rfl | htc'
    · refine get_isSome_setSuiteCaseFailures_mono _ _ _ ?_
      rw [if_pos ⟨hsk, hst⟩]
      simp [Gauge.get_set_self]
    · exact ih htc' _

theorem get_isSome_setTestCaseFailures_of_mem {ca : List String}
    {suites : List TestSuite} {suite : TestSuite} (hs : suite ∈ suites)
    {tc : TestCase} (htc : tc ∈ suite.cases)
    (hsk : tc.skipped = false) (hst : tc.status ≠ "PASSED") (g : Gauge) :
    ((setTestCaseFailures ca suites g).get
        (ca ++ [suite.name, tc.name, tc.status, intLabel tc.failedSince])).isSome = true := by
  induction suites generalizing g with
  | nil => cases hs
  | cons s0 t ih =>
    rw [setTestCaseFailures_cons]
    rcases List.mem_cons.mp hs with rfl | hs'
    · exact get_isSome_setTestCaseFailures_mono _ _ _
        (get_isSome_setSuiteCaseFailures_of_mem htc hsk hst g)
    · exact ih hs' _

/-- C3: for a running job, every published
`jenkins_running_build_pipeline_status` series comes from a stage of the
running build's pipeline with the stage's status encoded as its value, and the
encoding maps `"SUCCESS"` to 0, `"IN_PROGRESS"` to 1, `"UNSTABLE"` to 2,
`"FAILED"` to 3, and every other status string to -1. -/
theorem runningPipeline_status_encoding (job : JobData) (lcb lb : Build)
    (hrun : job.running = true) :
    (∀ e ∈ (processJob job lcb lb resetMetrics).jenkinsRunningBuildPipelineStatus,
      ∃ st ∈ (job.pipelineRun (intLabel lb.number)).stages,
        e = ([job.name, intLabel lb.number, pad3 st.id, st.name],
             stageStatusValue st.status))
    ∧ stageStatusValue "SUCCESS" = 0 ∧ stageStatusValue "IN_PROGRESS" = 1
    ∧ stageStatusValue "UNSTABLE" = 2 ∧ stageStatusValue "FAILED" = 3
    ∧ (∀ status : String,
        status ∉ (["SUCCESS", "IN_PROGRESS", "UNSTABLE", "FAILED"] : List String) →
        stageStatusValue status = -1) := by
  refine ⟨?_, rfl, rfl, rfl, rfl, ?_⟩
  · intro e he
    rw [processJob_fields] at he
    simp only [isRunningValue, hrun, if_true, resetMetrics] at he
    rcases mem_setPipelineStatusStages _ _ he with h | h
    · cases h
    · exact h
  · intro status hst
    simp only [List.mem_cons, List.not_mem_nil, or_false, not_or] at hst
    obtain ⟨h1, h2, h3, h4⟩ := hst
    simp [stageStatusValue, h1, h2, h3, h4]

/-- C3 witness: `runningPipeline_status_encoding` at the sample running job. -/
theorem runningPipeline_status_encoding_witness :
    (∀ e ∈ (processJob sampleJob sampleBuild sampleRunningBuild
              resetMetrics).jenkinsRunningBuildPipelineStatus,
      ∃ st ∈ (sampleJob.pipelineRun (intLabel sampleRunningBuild.number)).stages,
        e = ([sampleJob.name, intLabel sampleRunningBuild.number, pad3 st.id, st.name],
             stageStatusValue st.status))
    ∧ stageStatusValue "SUCCESS" = 0 ∧ stageStatusValue "IN_PROGRESS" = 1
    ∧ stageStatusValue "UNSTABLE" = 2 ∧ stageStatusValue "FAILED" = 3
    ∧ (∀ status : String,
        status ∉ (["SUCCESS", "IN_PROGRESS", "UNSTABLE", "FAILED"] : List String) →
        stageStatusValue status = -1) :=
  runningPipeline_status_encoding sampleJob sampleBuild sampleRunningBuild rfl

/-- C9: from a reset state, a `jenkins_build_test_case_failure_age` series is
published for a label vector exactly when some test case of the result set is
not skipped and has a status other than `"PASSED"` with those labels (job
name, last completed build id, suite name, case name, status, failed-since
build number), and every published entry's value is such a case's age. -/
theorem testCaseFailureAge_characterization (job : JobData) (lcb lb : Build) :
    (∀ e ∈ (processJob job lcb lb resetMetrics).jenkinsCompletedBuildTestCaseFailureAge,
      ∃ suite ∈ job.resultSet.suites, ∃ tc ∈ suite.cases,
        tc.skipped = false ∧ tc.status ≠ "PASSED" ∧
        e = (failureAgeLabels job.name lcb.number suite tc, tc.age))
    ∧ (∀ l : List String,
        (((processJob job lcb lb
            resetMetrics).jenkinsCompletedBuildTestCaseFailureAge).get l).isSome = true ↔
        ∃ suite ∈ job.resultSet.suites, ∃ tc ∈ suite.cases,
          tc.skipped = false ∧ tc.status ≠ "PASSED" ∧
          l = failureAgeLabels job.name lcb.number suite tc) := by
  have hfield : (processJob job lcb lb
      resetMetrics).jenkinsCompletedBuildTestCaseFailureAge
      = setTestCaseFailures [job.name, intLabel lcb.number] job.resultSet.suites [] := by
    rw [processJob_fields]
    rfl
  constructor
  · intro e he
    rw [hfield] at he
    rcases mem_setTestCaseFailures _ _ he with h | ⟨suite, hs, tc, htc, hsk, hst, he⟩
    · cases h
    · exact ⟨suite, hs, tc, htc, hsk, hst, he⟩
  · intro l
    rw [hfield]
    constructor
    · intro h
      obtain ⟨v, hv⟩ := (Gauge.get_isSome_iff _ l).mp h
      rcases mem_setTestCaseFailures _ _ hv with h' | ⟨suite, hs, tc, htc, hsk, hst, he⟩
      · cases h'
      · exact ⟨suite, hs, tc, htc, hsk, hst, congrArg Prod.fst he⟩
    · rintro ⟨suite, hs, tc, htc, hsk, hst, rfl⟩
      exact get_isSome_setTestCaseFailures_of_mem hs htc hsk hst []

theorem processJobs_cons_errJob {api : JenkinsAPI} {j : String} (rest : List String)
    (s : MetricsState) (hg : api.getJob j = none) :
    processJobs api (j :: rest) s = (s, [msgJobDoesNotExist]) := by
  unfold processJobs
  rw [hg]

theorem processJobs_cons_errLcb {api : JenkinsAPI} {j : String} (rest : List String)
    (s : MetricsState) {job : JobData} (hg : api.getJob j = some job)
    (hlcb : job.lastCompletedBuild = none) :
    processJobs api (j :: rest) s = (s, [msgNoLastCompletedBuild j]) := by
  unfold processJobs
  rw [hg]
  dsimp only
  rw [hlcb]

theorem processJobs_cons_errLb {api : JenkinsAPI} {j : String} (rest : List String)
    (s : MetricsState) {job : JobData} {lcb : Build} (hg : api.getJob j = some job)
    (hlcb : job.lastCompletedBuild = some lcb) (hlb : job.lastBuild = none) :
    processJobs api (j :: rest) s = (s, [msgNoLastBuild j]) := by
  unfold processJobs
  rw [hg]
  dsimp only
  rw [hlcb]
  dsimp only
  rw [hlb]

theorem processJobs_cons_ok {api : JenkinsAPI} {j : String} (rest : List String)
    (s : MetricsState) {job : JobData} {lcb lb : Build} (hg : api.getJob j = some job)
    (hlcb : job.lastCompletedBuild = some lcb) (hlb : job.lastBuild = some lb) :
    processJobs api (j :: rest) s = processJobs api rest (processJob job lcb lb s) := by
  conv_lhs => unfold processJobs
  rw [hg]
  dsimp only
  rw [hlcb]
  dsimp only
  rw [hlb]

theorem processJobs_append_fail (api : JenkinsAPI) (pre : List String) (j : String)
    (rest : List String) (msg : String) (s : MetricsState)
    (hpre : ∀ p ∈ pre, jobFetchErr api p = none)
    (hfail : jobFetchErr api j = some msg) :
    processJobs api (pre ++ j :: rest) s = ((processJobs api pre s).1, [msg]) := by
  induction pre generalizing s with
  | nil =>
    simp only [List.nil_append]
    unfold jobFetchErr at hfail
    cases hg : api.getJob j with
    | none =>
      rw [hg] at hfail
      injection hfail with h
      rw [processJobs_cons_errJob rest s hg, ← h]
      rfl
    | some job =>
      rw [hg] at hfail
      dsimp only at hfail
      cases hlcb : job.lastCompletedBuild with
      | none =>
        rw [hlcb] at hfail
        injection hfail with h
        rw [processJobs_cons_errLcb rest s hg hlcb, ← h]
        rfl
      | some lcb =>
        rw [hlcb] at hfail
        dsimp only at hfail
        cases hlb : job.lastBuild with
        | none =>
          rw [hlb] at hfail
          injection hfail with h
          rw [processJobs_cons_errLb rest s hg hlcb hlb, ← h]
          rfl
        | some lb =>
          rw [hlb] at hfail
          cases hfail
  | cons p t ih =>
    have hp := hpre p (List.mem_cons_self p t)
    unfold jobFetchErr at hp
    simp only [List.cons_append]
    cases hg : api.getJob p with
    | none => rw [hg] at hp; cases hp
    | some job =>
      rw [hg] at hp
      dsimp only at hp
      cases hlcb : job.lastCompletedBuild with
      | none => rw [hlcb] at hp; cases hp
      | some lcb =>
        rw [hlcb] at hp
        dsimp only at hp
        cases hlb : job.lastBuild with
        | none => rw [hlb] at hp; cases hp
        | some lb =>
          rw [processJobs_cons_ok (t ++ j :: rest) s hg hlcb hlb]
          rw [processJobs_cons_ok t s hg hlcb hlb]
          exact ih _ (fun q hq => hpre q (List.mem_cons_of_mem p hq))

/-- C5: every upstream API error during a cycle is logged with its exact
message and abandons processing with no retry, no backoff, and no series set
to mark the failure: on a connection failure the whole cycle is abandoned with
the metrics untouched, and on a per-job failure (missing job, or failure to
fetch the job's last completed or last build) the metrics state is exactly the
one produced by the successfully processed prefix of the job list. -/
theorem apiError_logs_and_abandons (api : JenkinsAPI) (cfg : Config) (s : MetricsState)
    (pre : List String) (j : String) (rest : List String) (msg : String)
    (hjobs : cfg.jenkins.jobs = pre ++ j :: rest)
    (hpre : ∀ p ∈ pre, jobFetchErr api p = none)
    (hfail : jobFetchErr api j = some msg) :
    updateMetrics api cfg s
      = if api.initOk then ((processJobs api pre resetMetrics).1, [msg])
        else (s, [msgConnectFailed]) := by
  unfold updateMetrics
  cases hinit : api.initOk
  · rfl
  · simp only [if_true]
    rw [hjobs]
    exact processJobs_append_fail api pre j rest msg resetMetrics hpre hfail

/-- C5 witness: `apiError_logs_and_abandons` with `job1` processed and the
unknown job `missing` failing at `GetJob`. -/
theorem apiError_logs_and_abandons_witness :
    updateMetrics sampleAPI sampleConfigMissingJob resetMetrics
      = ((processJobs sampleAPI ["job1"] resetMetrics).1, [msgJobDoesNotExist]) :=
  apiError_logs_and_abandons sampleAPI sampleConfigMissingJob resetMetrics
    ["job1"] "missing" [] msgJobDoesNotExist rfl
    (by intro p hp; simp only [List.mem_singleton] at hp; subst hp; rfl)
    rfl

end JenkinsExporter
